import Mathlib

/-!
Verification of the dialogue session core of the AI customer call handler.

The development shallowly embeds the Python sources:
  * `src/call_state.py` (CallState, CallStateManager),
  * `src/app.py` (the `/voice/confirm` handler `confirm_reservation` and
    `save_reservation`),
  * `src/ai_response_generator.py` (`detect_intent` and response templates),
  * `src/utils/fallback_extraction.py` (`parse_time`, `parse_date`).
Python strings are `String` / `List Char`, Python `None` is `Option.none`,
Python dicts are ordered association lists, wall-clock instants are `Int`
parameters passed to each operation that reads `time.time()`.
-/

/-! ### Basic Python string helpers -/

/-- Single quote character (avoids apostrophes in literals). -/
def sqc : String := String.mk [Char.ofNat 39]

/-- `text.lower()` as a character list. -/
def pyLowerList (s : String) : List Char := s.toList.map Char.toLower

/-- Does `hay` start with `pat`? -/
def startsWith : List Char → List Char → Bool
  | _, [] => true
  | [], _ :: _ => false
  | c :: cs, d :: ds => c == d && startsWith cs ds

/-- Python substring containment `pat in hay`. -/
def hasSub : List Char → List Char → Bool
  | [], pat => pat.isEmpty
  | c :: cs, pat => startsWith (c :: cs) pat || hasSub cs pat

/-- Containment of a `String` pattern. -/
def hasSubS (hay : List Char) (pat : String) : Bool := hasSub hay pat.toList

/-- `any(w in hay for w in ws)`. -/
def containsAnyW (hay : List Char) (ws : List String) : Bool :=
  ws.any (fun w => hasSubS hay w)

/-- `any(c.isdigit() for c in hay)`. -/
def anyDigit (hay : List Char) : Bool := hay.any Char.isDigit

/-- `str.strip()` (whitespace trim on both ends). -/
def pyStrip (cs : List Char) : List Char :=
  ((cs.dropWhile Char.isWhitespace).reverse.dropWhile Char.isWhitespace).reverse

/-- Split on whitespace runs, dropping empty words (`str.split()`). -/
def pySplitGo : List Char → List Char → List (List Char)
  | acc, [] => if acc.isEmpty then [] else [acc.reverse]
  | acc, c :: cs =>
    if c.isWhitespace then
      if acc.isEmpty then pySplitGo [] cs else acc.reverse :: pySplitGo [] cs
    else pySplitGo (c :: acc) cs

/-- `str.split()`. -/
def pySplit (cs : List Char) : List (List Char) := pySplitGo [] cs

/-- `str.isalpha()`: nonempty and all alphabetic. -/
def pyIsAlpha (cs : List Char) : Bool := !cs.isEmpty && cs.all Char.isAlpha

/-- First element satisfying `p` (Python `dict.get` / first-match `for` loops). -/
def firstHit {α : Type} (p : α → Bool) : List α → Option α
  | [] => none
  | x :: l => if p x then some x else firstHit p l

lemma firstHit_some {α : Type} {p : α → Bool} {l : List α} {x : α}
    (h : firstHit p l = some x) : x ∈ l ∧ p x = true := by
  induction l with
  | nil => simp [firstHit] at h
  | cons y l ih =>
    by_cases hy : p y = true
    · rw [firstHit, if_pos hy] at h
      obtain rfl : y = x := by injection h
      exact ⟨List.mem_cons_self _ _, hy⟩
    · rw [firstHit, if_neg hy] at h
      obtain ⟨h1, h2⟩ := ih h
      exact ⟨List.mem_cons_of_mem _ h1, h2⟩

/-- Numeric value of a digit list, mirroring Python `int` on a digit string. -/
def natOfDigits (ds : List Char) : Nat :=
  ds.foldl (fun a c => a * 10 + (c.toNat - 48)) 0

/-- Python `f"{n:02d}"` for `n < 100`: two zero-padded decimal digits
(every formatting site in the embedded code has `n ≤ 24`). -/
def fmt02 (n : Nat) : String :=
  String.mk [Nat.digitChar (n / 10), Nat.digitChar (n % 10)]

/-- Python `f"{n:04d}"` for `n ≤ 9999` (`strftime` year field). -/
def fmt04 (n : Nat) : String :=
  String.mk [Nat.digitChar (n / 1000), Nat.digitChar (n / 100 % 10),
             Nat.digitChar (n / 10 % 10), Nat.digitChar (n % 10)]

/-! ### `src/call_state.py`: CallState -/

/-- One call session (`CallState.__init__`).  `extracted_info` is the ordered
dict of slots; times are abstract `Int` instants. -/
structure CallState where
  call_id : String
  from_number : Option String
  start_time : Int
  last_update : Int
  transcription_history : List String
  extracted_info : List (String × Option String)
  confirmation_pending : Bool
  call_phase : String
  status : String
  call_duration : Int
  greeting_played : Bool
  intent : Option String
  last_intent : Option String
  deriving DecidableEq

/-- The six required slots, all unset, in constructor order. -/
def initExtractedInfo : List (String × Option String) :=
  [("name", none), ("date", none), ("time", none),
   ("party_size", none), ("phone", none), ("email", none)]

/-- `CallState(call_id, from_number)` at instant `now`. -/
def CallState.init (call_id : String) (from_number : Option String) (now : Int) :
    CallState :=
  { call_id := call_id
    from_number := from_number
    start_time := now
    last_update := now
    transcription_history := []
    extracted_info := initExtractedInfo
    confirmation_pending := false
    call_phase := "greeting"
    status := "active"
    call_duration := 0
    greeting_played := false
    intent := none
    last_intent := none }

/-- Python dict assignment `d[k] = v`: update in place if the key exists
(keeping insertion order), otherwise append. -/
def dictSet (l : List (String × Option String)) (k : String) (v : Option String) :
    List (String × Option String) :=
  if l.any (fun p => p.1 == k) then
    l.map (fun p => if p.1 == k then (p.1, v) else p)
  else l ++ [(k, v)]

/-- `CallState.update_extracted_info`: merge every non-`None`, non-empty value. -/
def CallState.update_extracted_info (s : CallState)
    (new_info : List (String × Option String)) (now : Int) : CallState :=
  if new_info.isEmpty then s
  else
    { s with
      extracted_info :=
        new_info.foldl
          (fun acc kv =>
            if kv.2 ≠ none ∧ kv.2 ≠ some "" then dictSet acc kv.1 kv.2 else acc)
          s.extracted_info
      last_update := now }

/-- `CallState.has_missing_info`. -/
def CallState.has_missing_info (s : CallState) : Bool :=
  s.extracted_info.any (fun p => p.2.isNone)

/-- `CallState.has_complete_info`. -/
def CallState.has_complete_info (s : CallState) : Bool :=
  s.extracted_info.all (fun p => p.2.isSome)

/-- `CallState.get_missing_fields`. -/
def CallState.get_missing_fields (s : CallState) : List String :=
  (s.extracted_info.filter (fun p => p.2.isNone)).map Prod.fst

/-- `CallState.set_confirmation_pending`. -/
def CallState.set_confirmation_pending (s : CallState) (pending : Bool) (now : Int) :
    CallState :=
  { s with
    confirmation_pending := pending
    call_phase := if pending then "confirming" else "gathering"
    last_update := now }

/-- `CallState.complete_call`. -/
def CallState.complete_call (s : CallState) (now : Int) : CallState :=
  { s with
    call_phase := "completed"
    status := "completed"
    call_duration := now - s.start_time
    last_update := now }

/-- `CallState.fail_call`. -/
def CallState.fail_call (s : CallState) (now : Int) : CallState :=
  { s with
    status := "failed"
    call_duration := now - s.start_time
    last_update := now }

/-- `CallState.mark_early_disconnected`. -/
def CallState.mark_early_disconnected (s : CallState) (now : Int) : CallState :=
  { s with
    call_phase := "early_disconnected"
    status := "early_disconnected"
    call_duration := now - s.start_time
    last_update := now }

/-- `CallState.set_greeting_played`. -/
def CallState.set_greeting_played (s : CallState) (played : Bool) (now : Int) :
    CallState :=
  { s with
    greeting_played := played
    call_phase := "gathering"
    last_update := now }

/-! ### `src/call_state.py`: CallStateManager -/

/-- The registry: the ordered dict `call_id -> CallState`. -/
structure CallStateManager where
  calls : List (String × CallState)
  deriving DecidableEq

/-- `self.calls.get(call_id)`. -/
def getCall (m : CallStateManager) (id : String) : Option CallState :=
  (firstHit (fun p => p.1 == id) m.calls).map Prod.snd

/-- In-place mutation of the session stored under `id` (if any). -/
def modifyCall (m : CallStateManager) (id : String) (f : CallState → CallState) :
    CallStateManager :=
  ⟨m.calls.map (fun p => if p.1 == id then (p.1, f p.2) else p)⟩

/-- `CallStateManager.initialize_call` (idempotent creation). -/
def CallStateManager.init_call (m : CallStateManager) (id : String)
    (from_number : Option String) (now : Int) : CallStateManager :=
  if (getCall m id).isSome then m
  else ⟨m.calls ++ [(id, CallState.init id from_number now)]⟩

/-- `CallStateManager.update_call_with_info`. -/
def CallStateManager.update_call_with_info (m : CallStateManager) (id : String)
    (extracted_info : List (String × Option String)) (now : Int) : CallStateManager :=
  match getCall m id with
  | none => m
  | some _ => modifyCall m id (fun cs => cs.update_extracted_info extracted_info now)

/-! ### Response texts and TwiML directives

Template strings from `AIResponseGenerator.templates` that the embedded
handlers emit; TwiML responses from `tts_handler` are modelled as a small
directive type carrying the spoken text. -/

/-- TwiML directives produced by `tts_handler` / `_create_empty_response`. -/
inductive Resp where
  | empty : Resp
  | speak (text : String) : Resp
  | hangup (text : String) : Resp
  | gather (text : String) (action : String) (numDigits : Nat) : Resp
  deriving DecidableEq

/-- `templates["completion"]`. -/
def completionText : String :=
  "Excellent! Your reservation has been confirmed. We look forward to serving you authentic Korean BBQ at Korean BBQ House London!"

/-- `templates["correction"]`. -/
def correctionText : String :=
  "Let" ++ sqc ++ "s start over. Could you please provide your information once more?"

/-- `templates["clarification"]`. -/
def clarificationText : String :=
  "I" ++ sqc ++ "m sorry, I didn" ++ sqc ++ "t catch that clearly. Could you please repeat that for me?"

/-- Python `x or default` on a possibly-`None` string value. -/
def pyOrDefault (v : Option String) (dflt : String) : String :=
  match v with
  | none => dflt
  | some s => if s = "" then dflt else s

/-- `templates["confirmation"].format(...)` as emitted by
`AIResponseGenerator.generate_confirmation`. -/
def confirmationText (name date time : String) : String :=
  "Let me confirm your reservation. " ++ name ++ ", you" ++ sqc ++
  "d like to book for " ++ date ++ " at " ++ time ++
  ". Is that correct? Press 1 for yes or 2 for no."

/-! ### `src/call_state.py`: remaining CallStateManager operations -/

/-- `CallStateManager.process_confirmation`: digit `"1"` completes the call,
anything else is treated as a correction request. -/
def CallStateManager.process_confirmation (m : CallStateManager)
    (id digit : String) (now : Int) : CallStateManager × Resp :=
  match getCall m id with
  | none => (m, Resp.empty)
  | some _ =>
    if digit == "1" then
      (modifyCall m id (fun cs => cs.complete_call now), Resp.hangup completionText)
    else
      (modifyCall m id (fun cs => cs.set_confirmation_pending false now),
       Resp.speak correctionText)

/-- `CallStateManager.update_call_status`; `duration` is the `CallDuration`
request field (`none` for the empty string, `some n` for a numeral). -/
def CallStateManager.update_call_status (m : CallStateManager)
    (id status : String) (duration : Option Int) (now : Int) : CallStateManager :=
  match getCall m id with
  | none => m
  | some _ =>
    modifyCall m id (fun cs =>
      if status == "completed" then
        if (cs.call_phase == "greeting" || cs.call_phase == "gathering")
            && cs.has_missing_info && !cs.has_complete_info then
          cs.mark_early_disconnected now
        else
          let c := cs.complete_call now
          match duration with
          | some d => { c with call_duration := d }
          | none => c
      else if status == "failed" then cs.fail_call now
      else cs)

/-- Is the status one of the terminal values swept by the cleanup? -/
def terminalStatus (st : String) : Bool :=
  st == "completed" || st == "failed" || st == "early_disconnected"

/-- `CallStateManager.cleanup_completed_calls(max_age)` at instant `now`:
delete terminal sessions whose last update is older than `max_age`. -/
def CallStateManager.cleanup_completed_calls (m : CallStateManager)
    (max_age : Int) (now : Int) : CallStateManager :=
  ⟨m.calls.filter (fun p =>
    !(terminalStatus p.2.status && decide (now - p.2.last_update > max_age)))⟩

/-! ### `src/app.py`: `save_reservation` and the `/voice/confirm` handler -/

/-- A `PersistReservation` request to the persistence collaborator
(`db.create_customer` / `db.create_reservation` inside `save_reservation`). -/
structure PersistReq where
  name : String
  date : String
  time : String
  deriving DecidableEq

/-- `data.get(k, "")` on the extracted-info dict. -/
def pyGetStr (data : List (String × Option String)) (k : String) : Option String :=
  match firstHit (fun p => p.1 == k) data with
  | some p => p.2
  | none => some ""

/-- Python truthiness of a possibly-`None` string. -/
def truthyOpt (v : Option String) : Bool :=
  match v with
  | none => false
  | some s => s != ""

/-- `data[k]` where the key is known to be present (absent keys read as
`None`; in the embedded code the slot dict always carries all six keys). -/
def pyIndex (data : List (String × Option String)) (k : String) : Option String :=
  match firstHit (fun p => p.1 == k) data with
  | some p => p.2
  | none => none

/-- `app.save_reservation(data)`: emits one `PersistReservation` request and
succeeds when name, date and time are all truthy; otherwise emits nothing and
fails.  The external database collaborator is assumed to succeed. -/
def save_reservation (data : List (String × Option String)) :
    List PersistReq × Bool :=
  let name := pyGetStr data "name"
  let date := pyGetStr data "date"
  let time := pyGetStr data "time"
  if truthyOpt name && truthyOpt date && truthyOpt time then
    ([⟨(name.getD ""), (date.getD ""), (time.getD "")⟩], true)
  else ([], false)

/-- `app.confirm_reservation` (`/voice/confirm` route): speech yes/no
normalization, then the digit branches.  Returns the updated registry, the
persistence requests emitted, and the TwiML directive. -/
def confirm_reservation (m : CallStateManager) (call_sid digit0 speech : String) :
    CallStateManager × List PersistReq × Resp :=
  let digit :=
    if speech ≠ "" then
      let sp := pyStrip (pyLowerList speech)
      if hasSubS sp "yes" || hasSubS sp "yeah" || hasSubS sp "yep" then "1"
      else if hasSubS sp "no" || hasSubS sp "nope" then "2"
      else digit0
    else digit0
  if digit == "1" then
    match getCall m call_sid with
    | some cs =>
      let (reqs, success) := save_reservation cs.extracted_info
      let text :=
        if success then completionText
        else "There was an error saving your reservation. Please try again."
      (m, reqs, Resp.hangup text)
    | none =>
      (m, [], Resp.hangup "Reservation information is not correct. Please start over.")
  else if digit == "2" then
    (m, [], Resp.gather correctionText "/voice/gather" 0)
  else
    match getCall m call_sid with
    | some cs =>
      if cs.has_complete_info then
        (m, [],
         Resp.gather
           (confirmationText
             (pyOrDefault (pyIndex cs.extracted_info "name") "customer")
             (pyOrDefault (pyIndex cs.extracted_info "date") "the date")
             (pyOrDefault (pyIndex cs.extracted_info "time") "the time"))
           "/voice/confirm" 1)
      else (m, [], Resp.gather clarificationText "/voice/gather" 0)
    | none => (m, [], Resp.gather clarificationText "/voice/gather" 0)

/-! ### `src/ai_response_generator.py`: `detect_intent` -/

/-- Conversation-ending phrases (checked first). -/
def endPhrases : List String :=
  ["that" ++ sqc ++ "s all", "no more", "nothing else", "that" ++ sqc ++ "s it",
   "no thanks", "i" ++ sqc ++ "m good", "that" ++ sqc ++ "s fine",
   "no more questions", "that" ++ sqc ++ "s everything"]

/-- Name-provision phrases. -/
def namePhrases : List String :=
  ["my name is", "i" ++ sqc ++ "m", "name is", "call me", "i am"]

/-- Date-provision words. -/
def dateWords : List String :=
  ["tomorrow", "today", "next", "monday", "tuesday", "wednesday", "thursday",
   "friday", "saturday", "sunday"]

/-- Time indicators. -/
def timeIndicators : List String :=
  ["at", "o" ++ sqc ++ "clock", "pm", "am", "evening", "afternoon", "morning", "night"]

/-- Hour-inquiry words excluding time provision. -/
def hoursExcl : List String := ["what", "your", "opening", "closing", "hours", "time"]

/-- Party-size words. -/
def partyWords : List String := ["people", "person", "party", "group"]

/-- Question words excluding party-size provision. -/
def questionWords : List String := ["how many", "what", "question"]

/-- Period words used by the positional time check. -/
def timeWords2 : List String :=
  ["p.m.", "a.m.", "evening", "afternoon", "morning", "night"]

/-- Keyword buckets of the global topic classification, in evaluation order. -/
def reservationWords : List String :=
  ["book", "reserve", "reservation", "table", "booking", "make a reservation"]

def hoursWords : List String := ["hours", "open", "close", "time", "operating", "when"]

def menuWords : List String :=
  ["menu", "food", "dish", "eat", "special", "recommend", "what do you have"]

def veganWords : List String := ["vegan", "vegetarian", "plant-based"]

def parkingWords : List String := ["parking", "car", "drive", "park"]

def locationWords : List String :=
  ["location", "address", "where", "find", "directions"]

def contactWords : List String := ["phone", "call", "contact", "number", "reach you"]

def priceWords : List String := ["price", "cost", "expensive", "cheap", "how much"]

/-- The global keyword buckets, as the literal if-chain of the source. -/
def globalBuckets (t : List Char) : String :=
  if containsAnyW t reservationWords then "reservation"
  else if containsAnyW t hoursWords then "hours"
  else if containsAnyW t menuWords then "menu"
  else if hasSubS t "halal" then "halal"
  else if containsAnyW t veganWords then "vegan"
  else if containsAnyW t parkingWords then "parking"
  else if containsAnyW t locationWords then "location"
  else if containsAnyW t contactWords then "contact"
  else if containsAnyW t priceWords then "price"
  else "general"

/-- The reservation-context information-provision checks (the block guarded by
`call_state and call_state.intent == "reservation"`); `none` when no check
fires and control falls through to the global buckets. -/
def resContextBlock (t : List Char) (s : CallState) : Option String :=
  if containsAnyW t namePhrases then some "providing_name"
  else if containsAnyW t dateWords || hasSubS t "-" || hasSubS t "/" then
    some "providing_date"
  else if containsAnyW t timeIndicators && !containsAnyW t hoursExcl then
    some "providing_time"
  else if (containsAnyW t partyWords || anyDigit t) && !containsAnyW t questionWords then
    some "providing_party_size"
  else if anyDigit t && (hasSubS t "phone" || hasSubS t "number" || hasSubS t "call") then
    some "providing_phone"
  else if hasSubS t "@" && hasSubS t "." then some "providing_email"
  else if s.call_phase == "gathering" && !s.get_missing_fields.isEmpty
      && s.get_missing_fields.head? == some "name"
      && (pySplit (pyStrip t)).length == 1
      && ((pySplit (pyStrip t)).headD []).all Char.isAlpha
      && !((pySplit (pyStrip t)).headD []).isEmpty then
    some "providing_name"
  else if s.call_phase == "gathering" && !s.get_missing_fields.isEmpty
      && s.get_missing_fields.head? == some "time"
      && (containsAnyW t timeWords2 || anyDigit t) then
    some "providing_time"
  else if s.call_phase == "gathering" && !s.get_missing_fields.isEmpty
      && s.get_missing_fields.head? == some "party_size" && anyDigit t then
    some "providing_party_size"
  else if s.call_phase == "gathering" && !s.get_missing_fields.isEmpty
      && s.get_missing_fields.head? == some "phone" && anyDigit t then
    some "providing_phone"
  else if s.call_phase == "gathering" && !s.get_missing_fields.isEmpty
      && s.get_missing_fields.head? == some "email"
      && hasSubS t "@" && hasSubS t "." then
    some "providing_email"
  else none

/-- `AIResponseGenerator.detect_intent(text, call_state)`. -/
def detect_intent (text : String) (call_state : Option CallState) : String :=
  let t := pyLowerList text
  if containsAnyW t endPhrases then "end_conversation"
  else
    match call_state with
    | some s =>
      if s.intent == some "reservation" then
        match resContextBlock t s with
        | some r => r
        | none => globalBuckets t
      else globalBuckets t
    | none => globalBuckets t

/-- The spec reading of the global classification: buckets tested in a fixed
order with the first match winning, `"general"` when nothing matches. -/
def firstMatchBucket : List (List String × String) → List Char → String
  | [], _ => "general"
  | b :: bs, t => if containsAnyW t b.1 then b.2 else firstMatchBucket bs t

/-- The fixed bucket order stated by the spec. -/
def bucketTable : List (List String × String) :=
  [(reservationWords, "reservation"), (hoursWords, "hours"), (menuWords, "menu"),
   (["halal"], "halal"), (veganWords, "vegan"), (parkingWords, "parking"),
   (locationWords, "location"), (contactWords, "contact"), (priceWords, "price")]

/-! ### Helper lemmas on the registry -/

lemma firstHit_map_modify (l : List (String × CallState)) (id : String)
    (f : CallState → CallState) :
    firstHit (fun p => p.1 == id)
        (l.map (fun p => if p.1 == id then (p.1, f p.2) else p))
      = (firstHit (fun p => p.1 == id) l).map (fun p => (p.1, f p.2)) := by
  induction l with
  | nil => rfl
  | cons q l ih =>
    by_cases h : (q.1 == id) = true
    · rw [List.map_cons, if_pos h, firstHit, if_pos h, firstHit, if_pos h]
      rfl
    · rw [List.map_cons, if_neg h, firstHit, if_neg h, firstHit, if_neg h, ih]

lemma getCall_modifyCall (m : CallStateManager) (id : String)
    (f : CallState → CallState) :
    getCall (modifyCall m id f) id = (getCall m id).map f := by
  obtain ⟨l⟩ := m
  unfold getCall modifyCall
  rw [firstHit_map_modify]
  cases firstHit (fun p => p.1 == id) l <;> rfl

lemma missing_and_not_complete (s : CallState) :
    (s.has_missing_info && !s.has_complete_info) = s.has_missing_info := by
  have h : s.has_missing_info = !s.has_complete_info := by
    unfold CallState.has_missing_info CallState.has_complete_info
    induction s.extracted_info with
    | nil => rfl
    | cons x xs ih =>
      cases h : x.2 <;> simp [List.any_cons, List.all_cons, h, ih]
  rw [h]
  cases s.has_complete_info <;> simp

lemma missing_eq_not_complete (s : CallState) :
    s.has_missing_info = !s.has_complete_info := by
  unfold CallState.has_missing_info CallState.has_complete_info
  induction s.extracted_info with
  | nil => rfl
  | cons x xs ih =>
    cases h : x.2 <;> simp [List.any_cons, List.all_cons, h, ih]

/-! ### Concrete fixture sessions used by witnesses and counterexamples -/

/-- A completely filled slot dict. -/
def infoFull : List (String × Option String) :=
  [("name", some "Kim Cheolsu"), ("date", some "2025-01-02"),
   ("time", some "19:00"), ("party_size", some "4"),
   ("phone", some "02-1234-5678"), ("email", some "kim@example.com")]

/-- A session in phase confirming with all slots present. -/
def sConfirming : CallState :=
  { call_id := "CA1", from_number := some "+447911", start_time := 0,
    last_update := 10, transcription_history := [], extracted_info := infoFull,
    confirmation_pending := true, call_phase := "confirming", status := "active",
    call_duration := 0, greeting_played := true, intent := some "reservation",
    last_intent := some "reservation" }

/-- A session still gathering, with every slot missing. -/
def sGathering : CallState :=
  { call_id := "CA2", from_number := none, start_time := 0, last_update := 10,
    transcription_history := [], extracted_info := initExtractedInfo,
    confirmation_pending := false, call_phase := "gathering", status := "active",
    call_duration := 0, greeting_played := true, intent := some "reservation",
    last_intent := none }

/-- A terminally completed session. -/
def sCompleted : CallState :=
  { call_id := "CA3", from_number := none, start_time := 0, last_update := 10,
    transcription_history := [], extracted_info := initExtractedInfo,
    confirmation_pending := false, call_phase := "completed", status := "completed",
    call_duration := 42, greeting_played := true, intent := some "reservation",
    last_intent := none }

def mConf : CallStateManager := ⟨[("CA1", sConfirming)]⟩

def mGath : CallStateManager := ⟨[("CA2", sGathering)]⟩

def mDone : CallStateManager := ⟨[("CA3", sCompleted)]⟩

/-! ### Claim C10 -/

/-- Claim C10: for every CallState, `has_missing_info` is the exact logical
negation of `has_complete_info`, and therefore the guard
`has_missing_info() and not has_complete_info()` used by `update_call_status`
is equivalent to `has_missing_info()` alone. -/
theorem C10_missing_negates_complete (s : CallState) :
    s.has_missing_info = !s.has_complete_info ∧
    (s.has_missing_info && !s.has_complete_info) = s.has_missing_info := by
  refine ⟨missing_eq_not_complete s, ?_⟩
  rw [missing_eq_not_complete s]
  cases s.has_complete_info <;> rfl

/-! ### Claim C6 -/

/-- Claim C6: a rejection (digit `"2"`) for a session in phase confirming
moves the phase back to gathering while leaving every slot of
`extracted_info` unchanged. -/
theorem C6_rejection_keeps_slots (m : CallStateManager) (id : String)
    (now : Int) (s : CallState) (h : getCall m id = some s)
    (_hph : s.call_phase = "confirming") :
    ∃ s', getCall (m.process_confirmation id "2" now).1 id = some s' ∧
      s'.call_phase = "gathering" ∧ s'.extracted_info = s.extracted_info := by
  unfold CallStateManager.process_confirmation
  rw [h]
  simp only [show (("2" : String) == "1") = false by decide, Bool.false_eq_true,
    if_false]
  refine ⟨s.set_confirmation_pending false now, ?_, rfl, rfl⟩
  rw [getCall_modifyCall, h]
  rfl

/-- Witness for C6, at a concrete registry holding a confirming session. -/
theorem C6_witness :
    ∃ s', getCall (mConf.process_confirmation "CA1" "2" 100).1 "CA1" = some s' ∧
      s'.call_phase = "gathering" ∧ s'.extracted_info = sConfirming.extracted_info :=
  C6_rejection_keeps_slots mConf "CA1" 100 sConfirming (by decide) (by decide)

/-! ### Claim C2 -/

/-- Counterexample for C2: `sCompleted` has terminal status `"completed"`, yet
`update_extracted_info` still rewrites its slots and `process_confirmation`
with digit `"2"` still rewrites its phase from `"completed"` to
`"gathering"`. -/
theorem C2_counterexample :
    sCompleted.status = "completed" ∧
    (sCompleted.update_extracted_info [("name", some "Kim")] 99).extracted_info
      ≠ sCompleted.extracted_info ∧
    (getCall (mDone.process_confirmation "CA3" "2" 99).1 "CA3").map
        CallState.call_phase = some "gathering" ∧
    sCompleted.call_phase = "completed" := by
  refine ⟨rfl, by decide, rfl, rfl⟩

/-- Claim C2 as amended: the mutating operations consult neither `status` nor
`call_phase` for terminality.  `update_extracted_info` performs the identical
slot merge whatever the status (in particular on terminal sessions), and
`process_confirmation` rewrites the phase of any present session — to
completed on digit `"1"`, to gathering on any other digit — even when the
session status is terminal. -/
theorem C2_amended :
    (∀ (s : CallState) (info : List (String × Option String)) (now : Int)
        (st : String),
      CallState.update_extracted_info { s with status := st } info now
        = { s.update_extracted_info info now with status := st }) ∧
    (∀ (m : CallStateManager) (id d : String) (now : Int) (s : CallState),
      getCall m id = some s → d ≠ "1" →
      ∃ s', getCall (m.process_confirmation id d now).1 id = some s' ∧
        s'.call_phase = "gathering") ∧
    (∀ (m : CallStateManager) (id : String) (now : Int) (s : CallState),
      getCall m id = some s →
      ∃ s', getCall (m.process_confirmation id "1" now).1 id = some s' ∧
        s'.call_phase = "completed" ∧ s'.status = "completed") := by
  refine ⟨?_, ?_, ?_⟩
  · intro s info now st
    unfold CallState.update_extracted_info
    by_cases h : info.isEmpty = true
    · rw [if_pos h, if_pos h]
    · rw [if_neg h, if_neg h]
  · intro m id d now s h hd
    unfold CallStateManager.process_confirmation
    rw [h]
    have hb : (d == "1") = false := by
      cases hb2 : d == "1"
      · rfl
      · exact absurd (by simpa using hb2) hd
    simp only [hb, Bool.false_eq_true, if_false]
    refine ⟨s.set_confirmation_pending false now, ?_, rfl⟩
    rw [getCall_modifyCall, h]
    rfl
  · intro m id now s h
    unfold CallStateManager.process_confirmation
    rw [h]
    simp only [show (("1" : String) == "1") = true by decide, if_true]
    refine ⟨s.complete_call now, ?_, rfl, rfl⟩
    rw [getCall_modifyCall, h]
    rfl

/-- Witness for C2 as amended, at a concrete terminal session. -/
theorem C2_witness :
    (∃ s', getCall (mDone.process_confirmation "CA3" "2" 99).1 "CA3" = some s' ∧
      s'.call_phase = "gathering") ∧
    (∃ s', getCall (mDone.process_confirmation "CA3" "1" 99).1 "CA3" = some s' ∧
      s'.call_phase = "completed" ∧ s'.status = "completed") :=
  ⟨C2_amended.2.1 mDone "CA3" "2" 99 sCompleted (by decide) (by decide),
   C2_amended.2.2 mDone "CA3" 99 sCompleted (by decide)⟩

/-! ### Claim C5 -/

/-- Counterexample for C5: a digits event whose digit (`"3"`) is neither
`"1"` nor `"2"` arriving while the phase is confirming does not leave the
phase unchanged in `process_confirmation` — the phase becomes gathering. -/
theorem C5_counterexample :
    sConfirming.call_phase = "confirming" ∧
    (getCall (mConf.process_confirmation "CA1" "3" 100).1 "CA1").map
        CallState.call_phase = some "gathering" := ⟨rfl, rfl⟩

/-- Claim C5 as amended: in the app `/voice/confirm` handler a digit that is
neither `"1"` nor `"2"` leaves the registry (hence every phase) unchanged and
emits no persistence request, but `CallStateManager.process_confirmation`
treats every digit other than `"1"` as a rejection and moves the phase of the
addressed session to gathering. -/
theorem C5_amended (m : CallStateManager) (sid d : String) (now : Int)
    (h1 : d ≠ "1") (h2 : d ≠ "2") :
    ((confirm_reservation m sid d "").1 = m ∧
     (confirm_reservation m sid d "").2.1 = []) ∧
    (∀ s, getCall m sid = some s →
      ∃ s', getCall (m.process_confirmation sid d now).1 sid = some s' ∧
        s'.call_phase = "gathering") := by
  have hb1 : (d == "1") = false := by
    cases hb : d == "1"
    · rfl
    · exact absurd (by simpa using hb) h1
  have hb2 : (d == "2") = false := by
    cases hb : d == "2"
    · rfl
    · exact absurd (by simpa using hb) h2
  constructor
  · unfold confirm_reservation
    simp only [ne_eq, not_true_eq_false, if_false, hb1, hb2, Bool.false_eq_true]
    cases hg : getCall m sid with
    | none => exact ⟨rfl, rfl⟩
    | some cs => cases hc : cs.has_complete_info <;> simp [hc]
  · intro s h
    unfold CallStateManager.process_confirmation
    rw [h]
    simp only [hb1, Bool.false_eq_true, if_false]
    refine ⟨s.set_confirmation_pending false now, ?_, rfl⟩
    rw [getCall_modifyCall, h]
    rfl

/-- Witness for C5 as amended, with digit `"3"` on a confirming session. -/
theorem C5_witness :
    ((confirm_reservation mConf "CA1" "3" "").1 = mConf ∧
     (confirm_reservation mConf "CA1" "3" "").2.1 = []) ∧
    (∀ s, getCall mConf "CA1" = some s →
      ∃ s', getCall (mConf.process_confirmation "CA1" "3" 100).1 "CA1" = some s' ∧
        s'.call_phase = "gathering") :=
  C5_amended mConf "CA1" "3" 100 (by decide) (by decide)

/-! ### Claim C1 -/

/-- Counterexample for C1: on digit `"1"` in phase confirming with all slots
present, the app `/voice/confirm` handler emits exactly one
`PersistReservation` request but leaves the registry — and hence the phase,
still `"confirming"` — unchanged, so the phase does not become completed in
the path that persists. -/
theorem C1_counterexample :
    (confirm_reservation mConf "CA1" "1" "").2.1.length = 1 ∧
    (confirm_reservation mConf "CA1" "1" "").1 = mConf ∧
    (getCall (confirm_reservation mConf "CA1" "1" "").1 "CA1").map
        CallState.call_phase = some "confirming" ∧
    (getCall (confirm_reservation mConf "CA1" "1" "").1 "CA1").map
        CallState.status = some "active" := ⟨rfl, rfl, rfl, rfl⟩

/-- Claim C1 as amended: the two effects live in two divergent handlers.  On
digit `"1"` for a present session with truthy name, date and time slots, the
app handler `confirm_reservation` emits exactly one `PersistReservation`
request and leaves the registry unchanged (no phase or status change), while
`CallStateManager.process_confirmation` moves the session to phase completed
and status completed but emits no persistence request at all (its return
carries no persistence output). -/
theorem C1_amended (m : CallStateManager) (sid : String) (now : Int)
    (s : CallState) (h : getCall m sid = some s)
    (hn : truthyOpt (pyGetStr s.extracted_info "name") = true)
    (hd : truthyOpt (pyGetStr s.extracted_info "date") = true)
    (ht : truthyOpt (pyGetStr s.extracted_info "time") = true) :
    ((confirm_reservation m sid "1" "").2.1.length = 1 ∧
     (confirm_reservation m sid "1" "").1 = m) ∧
    ∃ s', getCall (m.process_confirmation sid "1" now).1 sid = some s' ∧
      s'.call_phase = "completed" ∧ s'.status = "completed" := by
  constructor
  · have hcond : (truthyOpt (pyGetStr s.extracted_info "name")
        && truthyOpt (pyGetStr s.extracted_info "date")
        && truthyOpt (pyGetStr s.extracted_info "time")) = true := by
      rw [hn, hd, ht]; rfl
    unfold confirm_reservation
    simp only [ne_eq, not_true_eq_false, if_false,
      show (("1" : String) == "1") = true by decide, if_true]
    rw [h]
    simp only [save_reservation, hcond, if_true]
    exact ⟨rfl, trivial⟩
  · unfold CallStateManager.process_confirmation
    rw [h]
    simp only [show (("1" : String) == "1") = true by decide, if_true]
    refine ⟨s.complete_call now, ?_, rfl, rfl⟩
    rw [getCall_modifyCall, h]
    rfl

/-- Witness for C1 as amended, at the concrete confirming session. -/
theorem C1_witness :
    ((confirm_reservation mConf "CA1" "1" "").2.1.length = 1 ∧
     (confirm_reservation mConf "CA1" "1" "").1 = mConf) ∧
    ∃ s', getCall (mConf.process_confirmation "CA1" "1" 100).1 "CA1" = some s' ∧
      s'.call_phase = "completed" ∧ s'.status = "completed" :=
  C1_amended mConf "CA1" 100 sConfirming (by decide) (by decide) (by decide)
    (by decide)

/-! ### Claim C4 -/

/-- Counterexample for C4: a status value other than `"completed"` or
`"failed"` (here `"busy"`) received for a registered active session is not
applied to the session — the stored status remains `"active"`. -/
theorem C4_counterexample :
    (getCall (mGath.update_call_status "CA2" "busy" none 50) "CA2").map
        CallState.status = some "active" ∧
    ("active" : String) ≠ "busy" := ⟨rfl, by decide⟩

/-- Claim C4 as amended: for a registered id, status `"completed"` is turned
into early_disconnected when the phase is greeting or gathering and a slot is
missing, and otherwise applied as completed; status `"failed"` is applied as
failed; every other status value leaves the session unchanged (it is only
logged, not applied).  For an unknown id the operation is a no-op. -/
theorem C4_amended (m : CallStateManager) (id : String) (dur : Option Int)
    (now : Int) :
    (getCall m id = none →
      ∀ st, m.update_call_status id st dur now = m) ∧
    (∀ s, getCall m id = some s →
      ((s.call_phase = "greeting" ∨ s.call_phase = "gathering") →
        s.has_missing_info = true →
        (getCall (m.update_call_status id "completed" dur now) id).map
          CallState.status = some "early_disconnected") ∧
      (¬((s.call_phase = "greeting" ∨ s.call_phase = "gathering") ∧
          s.has_missing_info = true) →
        (getCall (m.update_call_status id "completed" dur now) id).map
          CallState.status = some "completed") ∧
      ((getCall (m.update_call_status id "failed" dur now) id).map
          CallState.status = some "failed") ∧
      (∀ st, st ≠ "completed" → st ≠ "failed" →
        getCall (m.update_call_status id st dur now) id = some s)) := by
  constructor
  · intro h st
    unfold CallStateManager.update_call_status
    rw [h]
  · intro s h
    have hguard : ∀ s : CallState,
        ((s.call_phase == "greeting" || s.call_phase == "gathering")
          && s.has_missing_info && !s.has_complete_info)
        = ((s.call_phase == "greeting" || s.call_phase == "gathering")
          && s.has_missing_info) := by
      intro s
      rw [Bool.and_assoc, missing_and_not_complete]
    refine ⟨?_, ?_, ?_, ?_⟩
    · intro hph hmiss
      unfold CallStateManager.update_call_status
      rw [h, getCall_modifyCall, h]
      have hphb : (s.call_phase == "greeting" || s.call_phase == "gathering")
          = true := by
        rcases hph with hph | hph <;> rw [hph] <;> decide
      simp only [Option.map_some', show (("completed" : String) == "completed")
        = true by decide, if_true, hguard, hphb, hmiss, Bool.true_and, if_true]
      rfl
    · intro hne
      unfold CallStateManager.update_call_status
      rw [h, getCall_modifyCall, h]
      have hg : ((s.call_phase == "greeting" || s.call_phase == "gathering")
          && s.has_missing_info) = false := by
        cases hb : (s.call_phase == "greeting" || s.call_phase == "gathering") with
        | false => rfl
        | true =>
          cases hm : s.has_missing_info with
          | false => rfl
          | true =>
            exfalso
            apply hne
            simp only [Bool.or_eq_true, beq_iff_eq] at hb
            exact ⟨hb, hm⟩
      simp only [Option.map_some', show (("completed" : String) == "completed")
        = true by decide, if_true, hguard, hg, Bool.false_eq_true, if_false]
      cases dur <;> rfl
    · unfold CallStateManager.update_call_status
      rw [h, getCall_modifyCall, h]
      simp only [Option.map_some',
        show (("failed" : String) == "completed") = false by decide,
        show (("failed" : String) == "failed") = true by decide,
        Bool.false_eq_true, if_false, if_true]
      rfl
    · intro st h1 h2
      unfold CallStateManager.update_call_status
      rw [h, getCall_modifyCall, h]
      have hb1 : (st == "completed") = false := by
        cases hb : st == "completed"
        · rfl
        · exact absurd (by simpa using hb) h1
      have hb2 : (st == "failed") = false := by
        cases hb : st == "failed"
        · rfl
        · exact absurd (by simpa using hb) h2
      simp only [hb1, hb2, Bool.false_eq_true, if_false, Option.map_some']

/-- Witness for C4 as amended, at two concrete registries. -/
theorem C4_witness :
    ((getCall (mGath.update_call_status "CA2" "completed" none 50) "CA2").map
        CallState.status = some "early_disconnected") ∧
    ((getCall (mConf.update_call_status "CA1" "completed" (some 33) 50)
        "CA1").map CallState.status = some "completed") ∧
    ((getCall (mGath.update_call_status "CA2" "failed" none 50) "CA2").map
        CallState.status = some "failed") ∧
    getCall (mGath.update_call_status "CA2" "busy" none 50) "CA2"
      = some sGathering :=
  ⟨((C4_amended mGath "CA2" none 50).2 sGathering (by decide)).1
      (Or.inr (by decide)) (by decide),
   ((C4_amended mConf "CA1" (some 33) 50).2 sConfirming (by decide)).2.1
      (by decide),
   ((C4_amended mGath "CA2" none 50).2 sGathering (by decide)).2.2.1,
   ((C4_amended mGath "CA2" none 50).2 sGathering (by decide)).2.2.2 "busy"
      (by decide) (by decide)⟩

/-! ### Claim C9 -/

lemma firstHit_filter_none {α : Type} (p q : α → Bool) (l : List α)
    (h : firstHit p l = none) : firstHit p (l.filter q) = none := by
  induction l with
  | nil => rfl
  | cons x l ih =>
    by_cases hx : p x = true
    · rw [firstHit, if_pos hx] at h
      exact absurd h (by simp)
    · rw [firstHit, if_neg hx] at h
      by_cases hq : q x = true
      · rw [List.filter_cons_of_pos hq, firstHit, if_neg hx]
        exact ih h
      · rw [List.filter_cons_of_neg (by simpa using hq)]
        exact ih h

/-- Claim C9: the sweep removes exactly the terminal sessions older than
`max_age`: a swept id afterwards reads as absent, and every other session —
active ones and terminal ones not older than `max_age` — is still present,
unchanged. -/
theorem C9_cleanup_exact (m : CallStateManager) (max_age now : Int)
    (id : String) (s : CallState)
    (hnd : (m.calls.map Prod.fst).Nodup)
    (h : getCall m id = some s) :
    (((s.status = "completed" ∨ s.status = "failed" ∨
        s.status = "early_disconnected") ∧ now - s.last_update > max_age) →
      getCall (m.cleanup_completed_calls max_age now) id = none) ∧
    (¬((s.status = "completed" ∨ s.status = "failed" ∨
        s.status = "early_disconnected") ∧ now - s.last_update > max_age) →
      getCall (m.cleanup_completed_calls max_age now) id = some s) := by
  obtain ⟨l⟩ := m
  unfold getCall CallStateManager.cleanup_completed_calls at *
  simp only at h hnd ⊢
  induction l with
  | nil => simp [firstHit] at h
  | cons x l ih =>
    rw [List.map_cons, List.nodup_cons] at hnd
    by_cases hx : (x.1 == id) = true
    · rw [firstHit, if_pos hx] at h
      have hxs : x.2 = s := by simpa using h
      obtain ⟨hx1, -⟩ := hnd
      have hrest : firstHit (fun p => p.1 == id) l = none := by
        clear ih h
        induction l with
        | nil => rfl
        | cons y l ihy =>
          rw [firstHit]
          have hy : (y.1 == id) = false := by
            cases hb : y.1 == id
            · rfl
            · exfalso
              apply hx1
              rw [List.map_cons, List.mem_cons]
              left
              have : x.1 = id := by simpa using hx
              have : y.1 = id := by simpa using hb
              simp_all
          rw [hy]
          simp only [Bool.false_eq_true, if_false]
          apply ihy
          intro hmem
          exact hx1 (by rw [List.map_cons, List.mem_cons]; right; exact hmem)
      constructor
      · intro hcond
        have hkeep : (!(terminalStatus x.2.status
            && decide (now - x.2.last_update > max_age))) = false := by
          rw [hxs]
          obtain ⟨hst, hage⟩ := hcond
          have h1 : terminalStatus s.status = true := by
            unfold terminalStatus
            rcases hst with h' | h' | h' <;> rw [h'] <;> decide
          rw [h1, decide_eq_true hage]
          rfl
        simp only [List.filter_cons, hkeep, Bool.false_eq_true, if_false]
        rw [firstHit_filter_none _ _ _ hrest]
        rfl
      · intro hcond
        have hkeep : (!(terminalStatus x.2.status
            && decide (now - x.2.last_update > max_age))) = true := by
          rw [hxs]
          cases h1 : terminalStatus s.status with
          | false => rfl
          | true =>
            cases h2 : decide (now - s.last_update > max_age) with
            | false => rfl
            | true =>
              exfalso
              apply hcond
              refine ⟨?_, of_decide_eq_true h2⟩
              unfold terminalStatus at h1
              simp only [Bool.or_eq_true, beq_iff_eq] at h1
              tauto
        simp only [List.filter_cons, hkeep, if_true]
        rw [firstHit, if_pos hx, ← hxs]
        rfl
    · rw [firstHit, if_neg hx] at h
      have ih2 := ih hnd.2 h
      cases hq : (!(terminalStatus x.2.status
          && decide (now - x.2.last_update > max_age))) with
      | true =>
        simp only [List.filter_cons, hq, if_true]
        constructor
        · intro hc
          rw [firstHit, if_neg hx]
          exact ih2.1 hc
        · intro hc
          rw [firstHit, if_neg hx]
          exact ih2.2 hc
      | false =>
        simp only [List.filter_cons, hq, Bool.false_eq_true, if_false]
        exact ih2

/-- Witness for C9: the sweep removes an old completed session and keeps a
younger active one. -/
theorem C9_witness :
    (getCall (mDone.cleanup_completed_calls 3600 10000) "CA3" = none) ∧
    (getCall (mConf.cleanup_completed_calls 3600 10000) "CA1"
      = some sConfirming) :=
  ⟨(C9_cleanup_exact mDone 3600 10000 "CA3" sCompleted (by decide)
      (by decide)).1 ⟨Or.inl (by decide), by decide⟩,
   (C9_cleanup_exact mConf 3600 10000 "CA1" sConfirming (by decide)
      (by decide)).2 (by decide)⟩

/-! ### Claim C8 -/

/-- Claim C8: `detect_intent` evaluates its rules in fixed order with the
first match winning — any text containing a conversation-ending phrase is
classified end_conversation whatever else it contains (for every session
argument), and outside the reservation-context block (no session) the result
is exactly the first matching bucket of the fixed order reservation, hours,
menu, halal, vegan, parking, location, contact, price, with general when
nothing matches. -/
theorem C8_intent_order :
    (∀ (text : String) (cs : Option CallState),
      containsAnyW (pyLowerList text) endPhrases = true →
      detect_intent text cs = "end_conversation") ∧
    (∀ text : String,
      containsAnyW (pyLowerList text) endPhrases = false →
      detect_intent text none
        = firstMatchBucket bucketTable (pyLowerList text)) := by
  constructor
  · intro text cs h
    unfold detect_intent
    simp only [h, if_true]
  · intro text h
    unfold detect_intent
    simp only [h, Bool.false_eq_true, if_false]
    simp only [globalBuckets, bucketTable, firstMatchBucket]
    have hh : containsAnyW (pyLowerList text) ["halal"]
        = hasSubS (pyLowerList text) "halal" := by
      simp [containsAnyW]
    rw [hh]

/-- Witness for C8: an ending phrase beats a bucket keyword, and a plain
parking question lands in the parking bucket. -/
theorem C8_witness :
    detect_intent "no thanks, that is all about the menu" (some sGathering)
      = "end_conversation" ∧
    detect_intent "where can I park tonight" none
      = firstMatchBucket bucketTable (pyLowerList "where can I park tonight") ∧
    firstMatchBucket bucketTable (pyLowerList "where can I park tonight")
      = "parking" :=
  ⟨C8_intent_order.1 "no thanks, that is all about the menu" (some sGathering)
      (by decide),
   C8_intent_order.2 "where can I park tonight" (by decide), by decide⟩

/-! ### `src/utils/fallback_extraction.py`: `parse_time` -/

/-- The apostrophe character. -/
def apos : Char := Char.ofNat 39

/-- Tail of the regex alternatives `a\.?m\.?` / `p\.?m\.?` after the leading
letter: optional dot, mandatory `m`, optional dot, all greedy.  Returns the
captured characters. -/
def matchDotMDot (lead : Char) : List Char → Option (List Char)
  | '.' :: 'm' :: '.' :: _ => some [lead, '.', 'm', '.']
  | '.' :: 'm' :: _ => some [lead, '.', 'm']
  | 'm' :: '.' :: _ => some [lead, 'm', '.']
  | 'm' :: _ => some [lead, 'm']
  | _ => none

/-- The am/pm capture group `(a\.?m\.?|p\.?m\.?|am|pm)` (the bare `am`/`pm`
alternatives are subsumed by the dotted ones). -/
def matchAmPm : List Char → Option (List Char)
  | 'a' :: rest => matchDotMDot 'a' rest
  | 'p' :: rest => matchDotMDot 'p' rest
  | _ => none

/-- The optional group `(?::(\d{2}))?`: a colon followed by exactly two
digits; on failure nothing is consumed. -/
def colonGroup : List Char → Option (List Char) × List Char
  | ':' :: d1 :: d2 :: r =>
    if d1.isDigit && d2.isDigit then (some [d1, d2], r)
    else (none, ':' :: d1 :: d2 :: r)
  | rest => (none, rest)

/-- Greedy match of `(\d{1,4})(?::(\d{2}))?\s*(am-pm)?` at a position whose
first character is a digit: the digit run (up to 4), the optional two-digit
minute group after a colon, and the optional am/pm capture after whitespace. -/
def matchTime1 (cs : List Char) :
    List Char × Option (List Char) × Option (List Char) :=
  let raw := (cs.takeWhile Char.isDigit).take 4
  let cg := colonGroup (cs.drop raw.length)
  (raw, cg.1, matchAmPm (cg.2.dropWhile Char.isWhitespace))

/-- `re.search` for the time pattern: leftmost match starts at the first
digit of the text. -/
def searchTime1 :
    List Char → Option (List Char × Option (List Char) × Option (List Char))
  | [] => none
  | c :: cs => if c.isDigit then some (matchTime1 (c :: cs)) else searchTime1 cs

/-- The literal `o'?clock` at the head of the list. -/
def litOclock : List Char → Bool
  | 'o' :: rest =>
    (match rest with
     | c :: rest2 =>
       if c = apos then startsWith rest2 "clock".toList
       else startsWith rest "clock".toList
     | [] => false)
  | _ => false

/-- Match `(\d{1,2})\s*o'?clock` at one position (greedy two digits, then a
one-digit backtrack), returning the captured hour value. -/
def matchOclockAt : List Char → Option Nat
  | [] => none
  | c1 :: rest =>
    if c1.isDigit then
      match rest with
      | [] => none
      | c2 :: rest2 =>
        if c2.isDigit then
          if litOclock (rest2.dropWhile Char.isWhitespace) then
            some (natOfDigits [c1, c2])
          else if litOclock ((c2 :: rest2).dropWhile Char.isWhitespace) then
            some (natOfDigits [c1])
          else none
        else
          if litOclock ((c2 :: rest2).dropWhile Char.isWhitespace) then
            some (natOfDigits [c1])
          else none
    else none

/-- `re.search` for the o'clock pattern (leftmost position that matches). -/
def searchOclock : List Char → Option Nat
  | [] => none
  | c :: cs =>
    match matchOclockAt (c :: cs) with
    | some h => some h
    | none => searchOclock cs

/-- The `number_words` dict, in insertion order. -/
def numberWords : List (String × Nat) :=
  [("one", 1), ("two", 2), ("three", 3), ("four", 4), ("five", 5), ("six", 6),
   ("seven", 7), ("eight", 8), ("nine", 9), ("ten", 10), ("eleven", 11),
   ("twelve", 12)]

/-- Written-number stage of `parse_time`, ending in the `"19:00"` default. -/
def numberWordStage (text : List Char) : String :=
  match firstHit (fun w => hasSubS text w.1) numberWords with
  | some w =>
    let num := w.2
    let hour :=
      if hasSubS text "pm" || hasSubS text "p.m." || hasSubS text "evening"
          || hasSubS text "night" then
        if num ≠ 12 then num + 12 else 12
      else if hasSubS text "am" || hasSubS text "a.m."
          || hasSubS text "morning" then
        if num = 12 then 0 else num
      else
        if 1 ≤ num ∧ num ≤ 6 then num + 12 else num
    fmt02 hour ++ ":00"
  | none => "19:00"

/-- The o'clock stage of `parse_time`. -/
def oclockStage (text : List Char) : String :=
  match searchOclock text with
  | some hour =>
    if 1 ≤ hour ∧ hour ≤ 12 then
      if 1 ≤ hour ∧ hour ≤ 6 then fmt02 (hour + 12) ++ ":00"
      else fmt02 hour ++ ":00"
    else numberWordStage text
  | none => numberWordStage text

/-- The 12-hour to 24-hour adjustment applied when the matched hour is in
[1,12]: am/pm membership tests, else the afternoon heuristic. -/
def adjustHour12 (hour0 : Nat) (gAmPm : Option (List Char)) : Nat :=
  match gAmPm with
  | some ap =>
    if ap = "a.m.".toList ∨ ap = "am".toList ∨ ap = ['a', ' ', 'm'] then
      if hour0 = 12 then 0 else hour0
    else if ap = "p.m.".toList ∨ ap = "pm".toList ∨ ap = ['p', ' ', 'm'] then
      if hour0 ≠ 12 then hour0 + 12 else hour0
    else hour0
  | none => if 1 ≤ hour0 ∧ hour0 ≤ 6 then hour0 + 12 else hour0

/-- The `raw_hour`-splitting branch guarded by `len(raw_hour) >= 3 and not
minute` (kept although `minute` is never empty), else `int(raw_hour)`. -/
def splitRawHour (rawHour minute : List Char) : Nat × List Char :=
  if rawHour.length ≥ 3 ∧ minute.isEmpty then
    if rawHour.length = 3 then (natOfDigits (rawHour.take 1), rawHour.drop 1)
    else (natOfDigits (rawHour.take 2), rawHour.drop 2)
  else (natOfDigits rawHour, minute)

/-- `minute = match.group(2) if match.group(2) else "00"`. -/
def minuteDefault (gMin : Option (List Char)) : List Char :=
  match gMin with
  | some mstr => mstr
  | none => ['0', '0']

/-- The numeric-regex stage of `parse_time`. -/
def regexStage (text : List Char) : String :=
  match searchTime1 text with
  | none => oclockStage text
  | some (rawHour, gMin, gAmPm) =>
    let hm := splitRawHour rawHour (minuteDefault gMin)
    if 1 ≤ hm.1 ∧ hm.1 ≤ 12 then
      fmt02 (adjustHour12 hm.1 gAmPm) ++ ":" ++ String.mk hm.2
    else oclockStage text

/-- The body of `parse_time` on the lowered, stripped text. -/
def timeOfText (text : List Char) : String :=
  if hasSubS text "morning" && !(hasSubS text "evening"
      || hasSubS text "afternoon" || hasSubS text "night") then "11:00"
  else if hasSubS text "afternoon" then "15:00"
  else if hasSubS text "evening" || hasSubS text "night" then "19:00"
  else if hasSubS text "lunch" then "13:00"
  else if hasSubS text "dinner" then "19:00"
  else if hasSubS text "breakfast" then "09:00"
  else regexStage text

/-- `fallback_extraction.parse_time`: `None` on the empty (falsy) input,
otherwise a string. -/
def parse_time (time_str : String) : Option String :=
  if time_str = "" then none
  else some (timeOfText (pyStrip (pyLowerList time_str)))

/-! ### Claim C3 -/

/-- The claim property: a five-character `HH:MM` string with hour at most 23
(minute digits unconstrained). -/
def validHM (r : String) : Bool :=
  match r.toList with
  | [a, b, c, d, e] =>
    a.isDigit && b.isDigit && (c == ':') && d.isDigit && e.isDigit &&
      decide (natOfDigits [a, b] ≤ 23)
  | _ => false

/-- The claim property exactly as stated: `HH:MM` with hour in [00,23] and
minute in [00,59]. -/
def validHM59 (r : String) : Bool :=
  match r.toList with
  | [a, b, c, d, e] =>
    a.isDigit && b.isDigit && (c == ':') && d.isDigit && e.isDigit &&
      decide (natOfDigits [a, b] ≤ 23) && decide (natOfDigits [d, e] ≤ 59)
  | _ => false

lemma takeWhile_all (p : Char → Bool) :
    ∀ l : List Char, ((l.takeWhile p).all p) = true := by
  intro l
  induction l with
  | nil => rfl
  | cons c l ih =>
    by_cases h : p c = true
    · rw [List.takeWhile_cons, if_pos h, List.all_cons, h, Bool.true_and]
      exact ih
    · rw [List.takeWhile_cons, if_neg h]
      rfl

lemma all_take (p : Char → Bool) (l : List Char) (n : Nat)
    (h : l.all p = true) : (l.take n).all p = true := by
  rw [List.all_eq_true] at h ⊢
  intro x hx
  exact h x (List.mem_of_mem_take hx)

lemma colonGroup_spec (cs mstr : List Char)
    (h : (colonGroup cs).1 = some mstr) :
    mstr.length = 2 ∧ mstr.all Char.isDigit = true := by
  unfold colonGroup at h
  split at h
  · rename_i d1 d2 r
    split at h
    · rename_i hd
      simp only [Option.some.injEq] at h
      subst h
      simp only [Bool.and_eq_true] at hd
      refine ⟨rfl, ?_⟩
      simp [List.all_cons, hd.1, hd.2]
    · simp at h
  · simp at h

lemma matchTime1_spec (c : Char) (cs : List Char) (hc : c.isDigit = true) :
    ((matchTime1 (c :: cs)).1 ≠ [] ∧ (matchTime1 (c :: cs)).1.length ≤ 4 ∧
      (matchTime1 (c :: cs)).1.all Char.isDigit = true) ∧
    ∀ mstr, (matchTime1 (c :: cs)).2.1 = some mstr →
      mstr.length = 2 ∧ mstr.all Char.isDigit = true := by
  have hraw : (matchTime1 (c :: cs)).1
      = ((c :: cs).takeWhile Char.isDigit).take 4 := rfl
  have hmin : (matchTime1 (c :: cs)).2.1
      = (colonGroup ((c :: cs).drop (matchTime1 (c :: cs)).1.length)).1 := rfl
  refine ⟨⟨?_, ?_, ?_⟩, ?_⟩
  · rw [hraw, List.takeWhile_cons, if_pos hc]
    simp
  · rw [hraw]
    exact List.length_take_le _ _
  · rw [hraw]
    exact all_take _ _ _ (takeWhile_all _ _)
  · intro mstr hm
    rw [hmin] at hm
    exact colonGroup_spec _ _ hm

lemma searchTime1_spec (cs : List Char) (raw : List Char)
    (gmin gap : Option (List Char))
    (h : searchTime1 cs = some (raw, gmin, gap)) :
    (raw ≠ [] ∧ raw.length ≤ 4 ∧ raw.all Char.isDigit = true) ∧
    ∀ mstr, gmin = some mstr →
      mstr.length = 2 ∧ mstr.all Char.isDigit = true := by
  induction cs with
  | nil => exact absurd h (by simp [searchTime1])
  | cons c cs ih =>
    rw [searchTime1] at h
    by_cases hc : c.isDigit = true
    · rw [if_pos hc] at h
      injection h with h'
      have hs := matchTime1_spec c cs hc
      rw [h'] at hs
      exact hs
    · rw [if_neg hc] at h
      exact ih h

lemma validHM_build (h : Nat) (hh : h ≤ 23) (mn : List Char)
    (hlen : mn.length = 2) (hdig : mn.all Char.isDigit = true) :
    validHM (fmt02 h ++ ":" ++ String.mk mn) = true := by
  match mn, hlen with
  | [d1, d2], _ =>
    simp only [List.all_cons, List.all_nil, Bool.and_true, Bool.and_eq_true]
      at hdig
    have key : ∀ n : Nat, n < 24 →
        ((Nat.digitChar (n / 10)).isDigit = true
          ∧ (Nat.digitChar (n % 10)).isDigit = true
          ∧ natOfDigits [Nat.digitChar (n / 10), Nat.digitChar (n % 10)] ≤ 23)
        := by decide
    obtain ⟨k1, k2, k3⟩ := key h (Nat.lt_succ_of_le hh)
    have htl : (fmt02 h ++ ":" ++ String.mk [d1, d2]).toList
        = [Nat.digitChar (h / 10), Nat.digitChar (h % 10), ':', d1, d2] := rfl
    unfold validHM
    rw [htl]
    simp [k1, k2, hdig.1, hdig.2, k3]

lemma numberWords_range : ∀ x ∈ numberWords, 1 ≤ x.2 ∧ x.2 ≤ 12 := by decide

lemma numberWordStage_valid (t : List Char) :
    validHM (numberWordStage t) = true := by
  unfold numberWordStage
  split
  · rename_i w heq
    obtain ⟨hmem, -⟩ := firstHit_some heq
    obtain ⟨hw1, hw2⟩ := numberWords_range w hmem
    apply validHM_build _ _ ['0', '0'] rfl rfl
    split_ifs <;> omega
  · decide

lemma oclockStage_valid (t : List Char) :
    validHM (oclockStage t) = true := by
  unfold oclockStage
  split
  · rename_i hour heq
    split_ifs with h1 h2
    · exact validHM_build (hour + 12) (by omega) ['0', '0'] rfl rfl
    · exact validHM_build hour (by omega) ['0', '0'] rfl rfl
    · exact numberWordStage_valid t
  · exact numberWordStage_valid t

lemma adjustHour12_le (hour0 : Nat) (h : hour0 ≤ 12)
    (g : Option (List Char)) : adjustHour12 hour0 g ≤ 23 := by
  cases g <;> simp only [adjustHour12] <;> split_ifs <;> omega

lemma splitRawHour_of_len2 (rawHour minute : List Char)
    (h2 : minute.length = 2) :
    splitRawHour rawHour minute = (natOfDigits rawHour, minute) := by
  unfold splitRawHour
  rw [if_neg]
  rintro ⟨-, he⟩
  rw [List.isEmpty_iff] at he
  subst he
  simp at h2

lemma regexStage_valid (t : List Char) :
    validHM (regexStage t) = true := by
  unfold regexStage
  split
  · exact oclockStage_valid t
  · rename_i rawHour gMin gAmPm heq
    obtain ⟨⟨hne, hlen, hdig⟩, hmin⟩ := searchTime1_spec t _ _ _ heq
    have hm2 : (minuteDefault gMin).length = 2
        ∧ (minuteDefault gMin).all Char.isDigit = true := by
      cases gMin with
      | none => exact ⟨rfl, rfl⟩
      | some mstr => exact hmin mstr rfl
    simp only []
    rw [splitRawHour_of_len2 _ _ hm2.1]
    split_ifs with h1
    · exact validHM_build _ (adjustHour12_le _ h1.2 _) _ hm2.1 hm2.2
    · exact oclockStage_valid t

lemma timeOfText_valid (t : List Char) : validHM (timeOfText t) = true := by
  unfold timeOfText
  split_ifs <;> first | decide | exact regexStage_valid t

/-- Counterexample for C3: `parse_time` does not return an `HH:MM` string for
every input — the empty string yields `None`, and the minute component is not
validated: `"7:99"` yields `"07:99"`, which violates minute ∈ [00,59]. -/
theorem C3_counterexample :
    parse_time "" = none ∧
    parse_time "7:99" = some "07:99" ∧
    validHM59 "07:99" = false := by
  refine ⟨rfl, by decide, by decide⟩

/-- Claim C3 as amended: for every non-empty input string `parse_time`
returns a five-character string `HH:MM` whose hour is between 00 and 23 and
whose minute field is two digits (but possibly above 59), and it never
raises; for the empty (falsy) input it returns `None` instead of a string. -/
theorem C3_amended :
    parse_time "" = none ∧
    ∀ s : String, s ≠ "" → ∃ r, parse_time s = some r ∧ validHM r = true := by
  constructor
  · rfl
  · intro s hs
    refine ⟨timeOfText (pyStrip (pyLowerList s)), ?_, timeOfText_valid _⟩
    unfold parse_time
    rw [if_neg hs]

/-- Witness for C3 as amended at a concrete non-empty input. -/
theorem C3_witness :
    ∃ r, parse_time "half past seven in the evening" = some r ∧
      validHM r = true :=
  C3_amended.2 "half past seven in the evening" (by decide)

/-! ### `src/utils/fallback_extraction.py`: `parse_date`

`datetime.now()` is modelled as a `PyNow`: a calendar date plus an abstract
time of day (`tod = 0` meaning exactly midnight) and the cached
`weekday()` value used by the weekday branch.  `datetime(y, m, d)`
construction with its `ValueError` is `mkDate?`; `timedelta(days=k)` addition
is `addDays`. -/

/-- A proleptic Gregorian calendar date. -/
structure Date where
  y : Nat
  m : Nat
  d : Nat
  deriving DecidableEq

/-- Gregorian leap-year rule. -/
def isLeap (y : Nat) : Bool := (y % 4 == 0 && y % 100 != 0) || y % 400 == 0

/-- Days in a month. -/
def daysInMonth (y m : Nat) : Nat :=
  if m = 2 then (if isLeap y then 29 else 28)
  else if m = 4 ∨ m = 6 ∨ m = 9 ∨ m = 11 then 30
  else 31

/-- The dates `datetime` accepts (year 1..9999). -/
def Date.valid (dt : Date) : Prop :=
  1 ≤ dt.y ∧ dt.y ≤ 9999 ∧ 1 ≤ dt.m ∧ dt.m ≤ 12 ∧ 1 ≤ dt.d ∧
    dt.d ≤ daysInMonth dt.y dt.m

instance (dt : Date) : Decidable dt.valid := by
  unfold Date.valid
  infer_instance

/-- `datetime(y, m, d)`: `none` models the `ValueError`. -/
def mkDate? (y m d : Nat) : Option Date :=
  if Date.valid ⟨y, m, d⟩ then some ⟨y, m, d⟩ else none

/-- Order-reflecting numeric key of a date (valid months/days stay below the
positional bases). -/
def Date.key (dt : Date) : Nat := dt.y * 10000 + dt.m * 100 + dt.d

/-- The day after. -/
def nextDay (dt : Date) : Date :=
  if dt.d < daysInMonth dt.y dt.m then ⟨dt.y, dt.m, dt.d + 1⟩
  else if dt.m < 12 then ⟨dt.y, dt.m + 1, 1⟩
  else ⟨dt.y + 1, 1, 1⟩

/-- `date + timedelta(days=k)` for `k ≥ 0`. -/
def addDays (dt : Date) : Nat → Date
  | 0 => dt
  | k + 1 => addDays (nextDay dt) k

/-- `datetime.now()` as seen by `parse_date`. -/
structure PyNow where
  date : Date
  tod : Nat
  wd : Nat

/-- Lexicographic date comparison. -/
def dateLtB (a b : Date) : Bool :=
  decide (a.y < b.y ∨ (a.y = b.y ∧ (a.m < b.m ∨ (a.m = b.m ∧ a.d < b.d))))

/-- `datetime(y, m, d) < today`: the constructed datetime is at midnight, so
on equal dates it is strictly below `now` exactly when `now` is past
midnight. -/
def dtLtNow (dt : Date) (n : PyNow) : Bool :=
  dateLtB dt n.date || (decide (dt = n.date) && decide (0 < n.tod))

/-- `strftime("%Y-%m-%d")`. -/
def formatDate (dt : Date) : String :=
  fmt04 dt.y ++ "-" ++ fmt02 dt.m ++ "-" ++ fmt02 dt.d

/-- The `weekdays` dict, in insertion order. -/
def weekdayTable : List (String × Nat) :=
  [("monday", 0), ("tuesday", 1), ("wednesday", 2), ("thursday", 3),
   ("friday", 4), ("saturday", 5), ("sunday", 6)]

/-- The `months` dict, in insertion order (full names, then abbreviations;
`may` appears only once). -/
def monthTable : List (String × Nat) :=
  [("january", 1), ("february", 2), ("march", 3), ("april", 4), ("may", 5),
   ("june", 6), ("july", 7), ("august", 8), ("september", 9), ("october", 10),
   ("november", 11), ("december", 12),
   ("jan", 1), ("feb", 2), ("mar", 3), ("apr", 4), ("jun", 6), ("jul", 7),
   ("aug", 8), ("sep", 9), ("oct", 10), ("nov", 11), ("dec", 12)]

/-- `re.search(r'(\d{1,2})', text)`: the leftmost run of up to two digits. -/
def firstDigitRun : List Char → Option (List Char)
  | [] => none
  | c :: cs =>
    if c.isDigit then some (((c :: cs).takeWhile Char.isDigit).take 2)
    else firstDigitRun cs

/-- `days_ahead`: weekday offset, adjusted into the future, plus 7 for a
`"next"`-qualified weekday. -/
def daysAheadFor (dayNum wd : Nat) (hasNext : Bool) : Int :=
  if hasNext then
    (if (dayNum : Int) - (wd : Int) ≤ 0 then (dayNum : Int) - (wd : Int) + 7
     else (dayNum : Int) - (wd : Int)) + 7
  else
    (if (dayNum : Int) - (wd : Int) ≤ 0 then (dayNum : Int) - (wd : Int) + 7
     else (dayNum : Int) - (wd : Int))

/-- The month-name loop of `parse_date`: first matching month name with a
digit in the text wins; a `ValueError` (invalid day, or a rolled date that
does not exist next year) falls through to the next dict entry; no match at all
defaults to today. -/
def monthScan (text : List Char) (now : PyNow) :
    List (String × Nat) → String
  | [] => formatDate now.date
  | mo :: rest =>
    if hasSubS text mo.1 then
      match firstDigitRun text with
      | some ds =>
        match mkDate? now.date.y mo.2 (natOfDigits ds) with
        | some dtObj =>
          if dtLtNow dtObj now then
            match mkDate? (now.date.y + 1) mo.2 (natOfDigits ds) with
            | some dt2 => formatDate dt2
            | none => monthScan text now rest
          else formatDate dtObj
        | none => monthScan text now rest
      | none => monthScan text now rest
    else monthScan text now rest

/-- `fallback_extraction.parse_date` (the weekday `timedelta` is always at
least one day when `wd` is a real weekday number, so `toNat` is exact). -/
def parse_date (date_text : String) (now : PyNow) : String :=
  if date_text = "" then formatDate now.date
  else if hasSubS (pyLowerList date_text) "today" then formatDate now.date
  else if hasSubS (pyLowerList date_text) "tomorrow" then
    formatDate (addDays now.date 1)
  else
    match firstHit (fun w => hasSubS (pyLowerList date_text) w.1)
        weekdayTable with
    | some wkd =>
      formatDate (addDays now.date
        (daysAheadFor wkd.2 now.wd
          (hasSubS (pyLowerList date_text) ("next " ++ wkd.1))).toNat)
    | none => monthScan (pyLowerList date_text) now monthTable

/-! ### Claim C7: lemmas about the date model -/

lemma daysInMonth_pos (y m : Nat) : 1 ≤ daysInMonth y m := by
  unfold daysInMonth
  split_ifs <;> omega

lemma daysInMonth_le (y m : Nat) : daysInMonth y m ≤ 31 := by
  unfold daysInMonth
  split_ifs <;> omega

lemma nextDay_valid {dt : Date} (h : dt.valid) (hy : dt.y ≤ 9998) :
    (nextDay dt).valid ∧ dt.key < (nextDay dt).key ∧ (nextDay dt).y ≤ dt.y + 1 := by
  obtain ⟨h1, h2, h3, h4, h5, h6⟩ := h
  have hd31 : dt.d ≤ 31 := le_trans h6 (daysInMonth_le _ _)
  have hp1 := daysInMonth_pos dt.y (dt.m + 1)
  have hp2 := daysInMonth_pos (dt.y + 1) 1
  unfold nextDay
  split_ifs with ha hb <;>
    refine ⟨?_, ?_, ?_⟩ <;>
    dsimp only [Date.valid, Date.key] <;>
    omega

lemma addDays_spec : ∀ (k : Nat) (dt : Date), dt.valid → dt.y + k ≤ 9999 →
    (addDays dt k).valid ∧ dt.key ≤ (addDays dt k).key := by
  intro k
  induction k with
  | zero => exact fun dt h _ => ⟨h, le_refl _⟩
  | succ k ih =>
    intro dt h hy
    rw [addDays]
    obtain ⟨hv, hk, hy1⟩ := nextDay_valid h (by omega)
    obtain ⟨hv2, hk2⟩ := ih (nextDay dt) hv (by omega)
    exact ⟨hv2, le_trans (le_of_lt hk) hk2⟩

lemma mkDate?_some {y m d : Nat} {dt : Date} (h : mkDate? y m d = some dt) :
    dt.valid ∧ dt.y = y ∧ dt.m = m ∧ dt.d = d := by
  unfold mkDate? at h
  split at h
  · rename_i hv
    injection h with h'
    subst h'
    exact ⟨hv, rfl, rfl, rfl⟩
  · cases h

lemma key_ge_of_not_ltNow {dt : Date} {n : PyNow} (hd : dt.valid)
    (hn : n.date.valid) (h : dtLtNow dt n = false) : n.date.key ≤ dt.key := by
  unfold dtLtNow dateLtB at h
  simp only [Bool.or_eq_false_iff, decide_eq_false_iff_not] at h
  obtain ⟨-, -, -, hdm, -, hdd⟩ := hd
  obtain ⟨-, -, -, hnm, -, hnd⟩ := hn
  have hdd31 : dt.d ≤ 31 := le_trans hdd (daysInMonth_le _ _)
  have hnd31 : n.date.d ≤ 31 := le_trans hnd (daysInMonth_le _ _)
  unfold Date.key
  have h1 := h.1
  omega

lemma monthScan_valid (text : List Char) (now : PyNow) (hval : now.date.valid)
    (_hy : now.date.y ≤ 9000) :
    ∀ l : List (String × Nat), ∃ dt, monthScan text now l = formatDate dt ∧
      dt.valid ∧ now.date.key ≤ dt.key := by
  intro l
  induction l with
  | nil => exact ⟨now.date, rfl, hval, le_refl _⟩
  | cons mo rest ih =>
    by_cases hmo : hasSubS text mo.1 = true
    · rw [monthScan, if_pos hmo]
      split
      · rename_i ds heq
        split
        · rename_i dtObj h1
          split
          · rename_i hlt
            split
            · rename_i d2 h2
              obtain ⟨hv2, hy2, hm2, -⟩ := mkDate?_some h2
              refine ⟨d2, rfl, hv2, ?_⟩
              obtain ⟨-, -, -, hnm, -, hnd⟩ := hval
              have hnd31 : now.date.d ≤ 31 :=
                le_trans hnd (daysInMonth_le _ _)
              obtain ⟨-, -, hm1, -, hd1, -⟩ := hv2
              unfold Date.key
              omega
            · exact ih
          · rename_i hlt
            rw [Bool.not_eq_true] at hlt
            obtain ⟨hv, -, -, -⟩ := mkDate?_some h1
            exact ⟨dtObj, rfl, hv, key_ge_of_not_ltNow hv hval hlt⟩
        · exact ih
      · exact ih
    · rw [monthScan, if_neg hmo]
      exact ih

lemma monthScan_first (text : List Char) (now : PyNow) :
    ∀ (l : List (String × Nat)) (nm : String) (mn : Nat) (ds : List Char)
      (d1 d2 : Date),
    firstHit (fun p => hasSubS text p.1) l = some (nm, mn) →
    firstDigitRun text = some ds →
    mkDate? now.date.y mn (natOfDigits ds) = some d1 →
    dtLtNow d1 now = true →
    mkDate? (now.date.y + 1) mn (natOfDigits ds) = some d2 →
    monthScan text now l = formatDate d2 := by
  intro l
  induction l with
  | nil => intro nm mn ds d1 d2 hf; exact absurd hf (by simp [firstHit])
  | cons mo rest ih =>
    intro nm mn ds d1 d2 hf hds h1 hlt h2
    obtain ⟨monm, momn⟩ := mo
    by_cases hmo : hasSubS text monm = true
    · rw [firstHit, if_pos hmo] at hf
      injection hf with hf
      injection hf with hfa hfb
      subst hfa
      subst hfb
      rw [monthScan, if_pos hmo]
      simp only [hds, h1, hlt, h2, if_true]
    · rw [firstHit, if_neg hmo] at hf
      rw [monthScan, if_neg hmo]
      exact ih nm mn ds d1 d2 hf hds h1 hlt h2

lemma weekdayTable_le6 : ∀ p ∈ weekdayTable, p.2 ≤ 6 := by decide

lemma weekdayTable_ne : ∀ p ∈ weekdayTable, p.1.toList ≠ [] := by decide

lemma monthTable_ne : ∀ p ∈ monthTable, p.1.toList ≠ [] := by decide

lemma daysAheadFor_le (w wd : Nat) (b : Bool) (hw : w ≤ 6) :
    (daysAheadFor w wd b).toNat ≤ 14 := by
  unfold daysAheadFor
  split_ifs <;> omega

lemma daysAheadFor_spec (w wd : Nat) (b : Bool) (hw : w ≤ 6) (hwd : wd < 7) :
    (b = false → 1 ≤ (daysAheadFor w wd b).toNat ∧
      (daysAheadFor w wd b).toNat ≤ 7) ∧
    (b = true → 8 ≤ (daysAheadFor w wd b).toNat ∧
      (daysAheadFor w wd b).toNat ≤ 14) ∧
    (wd + (daysAheadFor w wd b).toNat) % 7 = w := by
  unfold daysAheadFor
  cases b <;>
    refine ⟨fun hb => ?_, fun hb => ?_, ?_⟩ <;>
    split_ifs <;>
    first
      | omega
      | exact absurd hb (by decide)
      | simp_all

lemma parse_date_weekday (txt : String) (now : PyNow) (nm : String) (w : Nat)
    (ht : hasSubS (pyLowerList txt) "today" = false)
    (htm : hasSubS (pyLowerList txt) "tomorrow" = false)
    (hf : firstHit (fun p => hasSubS (pyLowerList txt) p.1) weekdayTable
      = some (nm, w)) :
    parse_date txt now = formatDate (addDays now.date
      (daysAheadFor w now.wd
        (hasSubS (pyLowerList txt) ("next " ++ nm))).toNat) := by
  have hne : txt ≠ "" := by
    intro he
    subst he
    obtain ⟨hmem, hsub⟩ := firstHit_some hf
    have h0 : nm.toList ≠ [] := weekdayTable_ne (nm, w) hmem
    have : hasSubS (pyLowerList "") nm = nm.toList.isEmpty := rfl
    rw [this, List.isEmpty_iff] at hsub
    exact h0 (by
      cases hh : nm.toList with
      | nil => rfl
      | cons a l => rw [hh] at hsub; cases hsub)
  unfold parse_date
  rw [if_neg hne, if_neg (by simp [ht]), if_neg (by simp [htm])]
  simp only [hf]

/-- Counterexample for C7: at reference time 2024-03-01 12:00 (a Friday in a
leap year) the month-plus-day text `"february 29"` is already past this year,
yet it is not rolled to next year — `datetime(2025, 2, 29)` does not exist,
the `ValueError` is swallowed, and the parser falls back to the current
date. -/
theorem C7_counterexample :
    dtLtNow ⟨2024, 2, 29⟩ ⟨⟨2024, 3, 1⟩, 720, 4⟩ = true ∧
    Date.valid ⟨2024, 2, 29⟩ ∧
    parse_date "february 29" ⟨⟨2024, 3, 1⟩, 720, 4⟩ = "2024-03-01" ∧
    ("2024-03-01" : String) ≠ "2025-02-29" :=
  ⟨by decide, by decide, by decide, by decide⟩

/-- Claim C7 as amended: for every input text the result of `parse_date` is a
valid calendar date not earlier than the reference date (given a valid
reference date with some year headroom); a text whose first matching weekday
name is `nm` with weekday number `w` (and no `"today"`/`"tomorrow"`) yields
the next future occurrence of that weekday — today plus `k` days with
`1 ≤ k ≤ 7` and `(wd + k) mod 7 = w` — with 7 more days when the text
contains `"next " ++ nm`; and a month-plus-day combination already past this
year is rolled to next year PROVIDED the rolled date exists (otherwise, as
the counterexample shows, the parser falls through to the default). -/
theorem C7_amended :
    (∀ (txt : String) (now : PyNow), now.date.valid → now.date.y ≤ 9000 →
      ∃ dt, parse_date txt now = formatDate dt ∧ dt.valid ∧
        now.date.key ≤ dt.key) ∧
    (∀ (txt : String) (now : PyNow) (nm : String) (w : Nat),
      now.wd < 7 →
      hasSubS (pyLowerList txt) "today" = false →
      hasSubS (pyLowerList txt) "tomorrow" = false →
      firstHit (fun p => hasSubS (pyLowerList txt) p.1) weekdayTable
        = some (nm, w) →
      hasSubS (pyLowerList txt) ("next " ++ nm) = false →
      ∃ k : Nat, parse_date txt now = formatDate (addDays now.date k) ∧
        1 ≤ k ∧ k ≤ 7 ∧ (now.wd + k) % 7 = w) ∧
    (∀ (txt : String) (now : PyNow) (nm : String) (w : Nat),
      now.wd < 7 →
      hasSubS (pyLowerList txt) "today" = false →
      hasSubS (pyLowerList txt) "tomorrow" = false →
      firstHit (fun p => hasSubS (pyLowerList txt) p.1) weekdayTable
        = some (nm, w) →
      hasSubS (pyLowerList txt) ("next " ++ nm) = true →
      ∃ k : Nat, parse_date txt now = formatDate (addDays now.date k) ∧
        8 ≤ k ∧ k ≤ 14 ∧ (now.wd + k) % 7 = w) ∧
    (∀ (txt : String) (now : PyNow) (nm : String) (mn : Nat) (ds : List Char)
      (d1 d2 : Date),
      hasSubS (pyLowerList txt) "today" = false →
      hasSubS (pyLowerList txt) "tomorrow" = false →
      firstHit (fun p => hasSubS (pyLowerList txt) p.1) weekdayTable = none →
      firstHit (fun p => hasSubS (pyLowerList txt) p.1) monthTable
        = some (nm, mn) →
      firstDigitRun (pyLowerList txt) = some ds →
      mkDate? now.date.y mn (natOfDigits ds) = some d1 →
      dtLtNow d1 now = true →
      mkDate? (now.date.y + 1) mn (natOfDigits ds) = some d2 →
      parse_date txt now = formatDate d2 ∧ d2.y = now.date.y + 1 ∧
        d2.m = mn ∧ d2.d = natOfDigits ds) := by
  refine ⟨?_, ?_, ?_, ?_⟩
  · intro txt now hval hy
    unfold parse_date
    by_cases he : txt = ""
    · rw [if_pos he]
      exact ⟨now.date, rfl, hval, le_refl _⟩
    · rw [if_neg he]
      by_cases ht : hasSubS (pyLowerList txt) "today" = true
      · rw [if_pos ht]
        exact ⟨now.date, rfl, hval, le_refl _⟩
      · rw [if_neg ht]
        by_cases htm : hasSubS (pyLowerList txt) "tomorrow" = true
        · rw [if_pos htm]
          obtain ⟨hv, hk⟩ := addDays_spec 1 now.date hval (by omega)
          exact ⟨addDays now.date 1, rfl, hv, hk⟩
        · rw [if_neg htm]
          cases hf : firstHit (fun p => hasSubS (pyLowerList txt) p.1)
              weekdayTable with
          | some wkd =>
            obtain ⟨wnm, ww⟩ := wkd
            obtain ⟨hmem, -⟩ := firstHit_some hf
            have hw6 : ww ≤ 6 := weekdayTable_le6 (wnm, ww) hmem
            have hk14 := daysAheadFor_le ww now.wd
              (hasSubS (pyLowerList txt) ("next " ++ wnm)) hw6
            obtain ⟨hv, hk⟩ := addDays_spec
              (daysAheadFor ww now.wd
                (hasSubS (pyLowerList txt) ("next " ++ wnm))).toNat
              now.date hval (by omega)
            exact ⟨_, rfl, hv, hk⟩
          | none => exact monthScan_valid _ now hval hy monthTable
  · intro txt now nm w hwd ht htm hf hnext
    obtain ⟨hmem, -⟩ := firstHit_some hf
    have hw : w ≤ 6 := weekdayTable_le6 (nm, w) hmem
    obtain ⟨hb, -, hmod⟩ := daysAheadFor_spec w now.wd false hw hwd
    obtain ⟨hb1, hb2⟩ := hb rfl
    refine ⟨(daysAheadFor w now.wd false).toNat, ?_, hb1, hb2, hmod⟩
    rw [parse_date_weekday txt now nm w ht htm hf, hnext]
  · intro txt now nm w hwd ht htm hf hnext
    obtain ⟨hmem, -⟩ := firstHit_some hf
    have hw : w ≤ 6 := weekdayTable_le6 (nm, w) hmem
    obtain ⟨-, hb, hmod⟩ := daysAheadFor_spec w now.wd true hw hwd
    obtain ⟨hb1, hb2⟩ := hb rfl
    refine ⟨(daysAheadFor w now.wd true).toNat, ?_, hb1, hb2, hmod⟩
    rw [parse_date_weekday txt now nm w ht htm hf, hnext]
  · intro txt now nm mn ds d1 d2 ht htm hfw hfm hds h1 hlt h2
    have hne : txt ≠ "" := by
      intro he
      subst he
      obtain ⟨hmem, hsub⟩ := firstHit_some hfm
      have h0 : nm.toList ≠ [] := monthTable_ne (nm, mn) hmem
      have hh : hasSubS (pyLowerList "") nm = nm.toList.isEmpty := rfl
      rw [hh, List.isEmpty_iff] at hsub
      exact h0 hsub
    obtain ⟨-, hy2, hm2, hd2⟩ := mkDate?_some h2
    refine ⟨?_, hy2, hm2, hd2⟩
    unfold parse_date
    rw [if_neg hne, if_neg (by simp [ht]), if_neg (by simp [htm])]
    simp only [hfw]
    exact monthScan_first (pyLowerList txt) now monthTable nm mn ds d1 d2
      hfm hds h1 hlt h2

/-- Witness for C7 as amended, at reference time 2025-01-01 12:00
(a Wednesday, weekday 2). -/
theorem C7_witness :
    (∃ dt, parse_date "see you soon" ⟨⟨2025, 1, 1⟩, 720, 2⟩ = formatDate dt ∧
      dt.valid ∧ Date.key ⟨2025, 1, 1⟩ ≤ dt.key) ∧
    (∃ k : Nat, parse_date "friday" ⟨⟨2025, 1, 1⟩, 720, 2⟩
        = formatDate (addDays ⟨2025, 1, 1⟩ k) ∧
      1 ≤ k ∧ k ≤ 7 ∧ (2 + k) % 7 = 4) ∧
    (∃ k : Nat, parse_date "next friday" ⟨⟨2025, 1, 1⟩, 720, 2⟩
        = formatDate (addDays ⟨2025, 1, 1⟩ k) ∧
      8 ≤ k ∧ k ≤ 14 ∧ (2 + k) % 7 = 4) ∧
    (parse_date "january 1" ⟨⟨2025, 1, 1⟩, 720, 2⟩
        = formatDate ⟨2026, 1, 1⟩ ∧
      (2026 : Nat) = 2025 + 1 ∧ (1 : Nat) = 1 ∧
      (1 : Nat) = natOfDigits ['1']) :=
  ⟨C7_amended.1 "see you soon" ⟨⟨2025, 1, 1⟩, 720, 2⟩ (by decide) (by decide),
   C7_amended.2.1 "friday" ⟨⟨2025, 1, 1⟩, 720, 2⟩ "friday" 4 (by decide)
     (by decide) (by decide) (by decide) (by decide),
   C7_amended.2.2.1 "next friday" ⟨⟨2025, 1, 1⟩, 720, 2⟩ "friday" 4 (by decide)
     (by decide) (by decide) (by decide) (by decide),
   C7_amended.2.2.2 "january 1" ⟨⟨2025, 1, 1⟩, 720, 2⟩ "january" 1 ['1']
     ⟨2025, 1, 1⟩ ⟨2026, 1, 1⟩ (by decide) (by decide) (by decide) (by decide)
     (by decide) (by decide) (by decide) (by decide)⟩
